import Mathlib

/-!
Shallow embedding of the live-session streaming core of the
LakshyNeuroChat repository: the `LiveSession` component (playback
scheduler, interruption handling, capture pipeline, session lifecycle)
and the PCM audio codec it uses, together with theorems settling the
frozen claims about this code.

Line numbers in the comments refer to the combined source file holding
the `LiveSession` component.
-/

namespace LNC

/-- Status of a WebAudio context: `running` after construction, `closed`
once `close()` has been called on it.  The ref can keep pointing at a
closed context. -/
inductive CtxStatus
  | running
  | closed
deriving DecidableEq, Repr

/-- One part of an inbound model turn.  Only the inline audio payload is
read by the live session (`parts[0]?.inlineData?.data`); it is carried
here as the base64-decoded byte list.  `none` models an absent field and
the empty list models the empty — falsy — base64 string. -/
structure MsgPart where
  inlineData : Option (List ℕ)
deriving DecidableEq, Repr

/-- An inbound live-server message, reduced to the two fields the
`onmessage` handler reads: `serverContent.modelTurn.parts` and
`serverContent.interrupted`. -/
structure ServerMessage where
  parts : List MsgPart
  interrupted : Bool
deriving DecidableEq, Repr

/-- The mutable refs of the `LiveSession` component (lines 326-336)
plus its observable React state (`isConnected`, `error`,
`visualizerData`), and two bookkeeping fields: `nextId` generates
identities for created buffer source nodes, and `timerActive` records
whether the video-sampling interval timer is alive on the platform (the
ref `frameIntervalRef` merely stores the timer id and is not cleared by
`clearInterval`). -/
structure Refs where
  streamRef : Option ℕ
  inputContextRef : Option CtxStatus
  outputContextRef : Option CtxStatus
  nextStartTimeRef : ℚ
  sourcesRef : List ℕ
  sessionRef : Option Unit
  frameIntervalRef : Option Unit
  nextId : ℕ
  timerActive : Bool
  isConnected : Bool
  error : Option String
  visualizerData : List ℚ
deriving DecidableEq, Repr

/-- The observable calls the handlers make on the platform and the
transport. -/
inductive Effect
  | decodeAudio (bytes : List ℕ)
  | sourceStart (id : ℕ) (startAt : ℚ) (dur : ℚ)
  | sourceStop (id : ℕ)
  | trackStop (idx : ℕ)
  | closeInputCtx
  | closeOutputCtx
  | sessionClose
  | clearTimer
  | sendChunk (bytes : List ℕ)
  | sendVideo (bytes : List ℕ)
deriving DecidableEq, Repr

/-- Modelled from the spec: the PCM codec lives in
`services/audioUtils.ts`, a repository file absent from `src/`.  §4.1
specifies a linear scaling of each float sample to a 16-bit signed
integer, clamping out-of-range input to the representable extremes. -/
def quantize (x : ℚ) : ℤ := max (-32768) (min 32767 ⌊x * 32768⌋)

/-- Little-endian byte pair of a 16-bit signed integer, two's
complement. -/
def bytesOfInt16 (n : ℤ) : List ℕ :=
  [(n % 65536).toNat % 256, (n % 65536).toNat / 256]

/-- Modelled from the spec: `encode` of the PCM codec (§4.1), mapping
each sample to a clamped 16-bit signed integer and serialising the
result as little-endian bytes. -/
def encode (s : List ℚ) : List ℕ :=
  s.flatMap (fun x => bytesOfInt16 (quantize x))

/-- The 16-bit signed integer denoted by a little-endian byte pair. -/
def int16OfBytes (lo hi : ℕ) : ℤ :=
  if lo % 256 + 256 * (hi % 256) < 32768 then
    ((lo % 256 + 256 * (hi % 256) : ℕ) : ℤ)
  else ((lo % 256 + 256 * (hi % 256) : ℕ) : ℤ) - 65536

/-- Modelled from the spec: `decode` of the PCM codec (§4.1), the exact
inverse of `encode` on even-length input; odd-length input is a
malformed-input error (`none`). -/
def decode : List ℕ → Option (List ℤ)
  | [] => some []
  | lo :: hi :: rest => (decode rest).map (fun t => int16OfBytes lo hi :: t)
  | [_] => none

/-- A decoded playback buffer; inbound playback is mono at 24000 Hz
(§3), so the duration is the frame count over 24000. -/
structure AudioData where
  samples : List ℤ
deriving DecidableEq, Repr

def AudioData.duration (b : AudioData) : ℚ := (b.samples.length : ℚ) / 24000

/-- Modelled from the spec: `decodeAudioData` (`services/audioUtils.ts`,
absent from `src/`) decodes PCM16 bytes into a playback buffer; a
malformed payload is a decode error (§7), which rejects the async
`onmessage` handler. -/
def decodeAudioData (bytes : List ℕ) : Option AudioData :=
  (decode bytes).map AudioData.mk

/-- The payload read at line 388:
`msg.serverContent?.modelTurn?.parts?.[0]?.inlineData?.data`, combined
with the JavaScript truthiness guard of line 389 (an empty base64
string is falsy and is treated as absent). -/
def audioData (m : ServerMessage) : Option (List ℕ) :=
  match m.parts.head? with
  | some p =>
      match p.inlineData with
      | some d => if d = [] then none else some d
      | none => none
  | none => none

/-- Lines 412-417 of the `onmessage` handler: when
`serverContent.interrupted` is set, stop every active source, clear the
set and reset the virtual clock to 0. -/
def interruptBranch (st : Refs) (m : ServerMessage) (eff : List Effect) :
    Refs × List Effect :=
  if m.interrupted then
    ({ st with sourcesRef := [], nextStartTimeRef := 0 },
     eff ++ st.sourcesRef.map Effect.sourceStop)
  else (st, eff)

/-- The `onmessage` handler (lines 386-418).  `now` is the output
context's `currentTime` at the moment the message is handled.  The audio
branch runs whenever the payload is truthy and `outputContextRef` is
non-null; it first advances the virtual clock to
`max(nextStartTime, now)` (line 391), then decodes — a decode error
rejects the async handler, so the interruption branch is skipped — then
starts a source at the advanced clock value and moves the clock past the
buffer (lines 407-408). -/
def processMessage (st : Refs) (now : ℚ) (m : ServerMessage) :
    Refs × List Effect :=
  match audioData m, st.outputContextRef with
  | some d, some _ =>
      let st0 := { st with nextStartTimeRef := max st.nextStartTimeRef now }
      match decodeAudioData d with
      | none => (st0, [Effect.decodeAudio d])
      | some buf =>
          interruptBranch
            { st0 with
                nextStartTimeRef := st0.nextStartTimeRef + buf.duration,
                sourcesRef := st0.nextId :: st0.sourcesRef,
                nextId := st0.nextId + 1 }
            m
            [Effect.decodeAudio d,
             Effect.sourceStart st0.nextId st0.nextStartTimeRef buf.duration]
  | _, _ => interruptBranch st m []

/-- A sequence of inbound messages handled in arrival order; each is
paired with the device time at which it is handled. -/
def runMessages : Refs → List (ℚ × ServerMessage) → Refs × List Effect
  | st, [] => (st, [])
  | st, (now, m) :: rest =>
      let r1 := processMessage st now m
      let r2 := runMessages r1.1 rest
      (r2.1, r1.2 ++ r2.2)

/-- The source-start calls contained in an effect log, as
(start time, duration) pairs in order. -/
def startEvents (l : List Effect) : List (ℚ × ℚ) :=
  l.filterMap (fun e =>
    match e with
    | Effect.sourceStart _ t d => some (t, d)
    | _ => none)

/-- The decoded buffer a message would deliver to the scheduler, if
any. -/
def audioOf (m : ServerMessage) : Option AudioData :=
  (audioData m).bind decodeAudioData

/-- A message that carries a truthy, well-formed audio payload and no
interruption flag. -/
def validAudioMsg (m : ServerMessage) : Bool :=
  (audioOf m).isSome && !m.interrupted

/-- Duration of the buffer a message delivers (0 when it delivers
none). -/
def durOf (m : ServerMessage) : ℚ :=
  match audioOf m with
  | some b => b.duration
  | none => 0

/-- The spec's scheduling algorithm (§4.3) as a pure recurrence: for
each arrival `(now, duration)`, start at `max(next, now)` and advance
`next` to the start plus the duration. -/
def specSchedule : ℚ → List (ℚ × ℚ) → List (ℚ × ℚ)
  | _, [] => []
  | next, (now, dur) :: rest =>
      (max next now, dur) :: specSchedule (max next now + dur) rest

/-- Mean absolute amplitude of a captured window (line 376):
`inputData.reduce((a, b) => a + Math.abs(b), 0) / inputData.length`. -/
def meanAbs (samples : List ℚ) : ℚ :=
  (samples.map (fun x => |x|)).sum / samples.length

/-- One visualizer refresh (line 377):
`prev.map(() => Math.random() * 20 + volume * 500)`.  The mapped
function ignores the bar's old value and draws a fresh random number per
bar; `j k` is the k-th draw of the pass. -/
def updateBars (j : ℕ → ℚ) (volume : ℚ) : ℕ → List ℚ → List ℚ
  | _, [] => []
  | k, _ :: rest => (j k * 20 + volume * 500) :: updateBars j volume (k + 1) rest

/-- The `onaudioprocess` handler (lines 370-378) for one captured
window: encode the window via `createBlob` (the PCM encoder, §4.1) and
send it, then refresh the visualizer from the window's volume.  The
platform fires the handler only while the input context is running. -/
def captureWindow (st : Refs) (samples : List ℚ) (j : ℕ → ℚ) :
    Refs × List Effect :=
  match st.inputContextRef with
  | some CtxStatus.running =>
      ({ st with
           visualizerData := updateBars j (meanAbs samples) 0 st.visualizerData },
       [Effect.sendChunk (encode samples)])
  | _ => (st, [])

/-- A sequence of captured windows, each with its stream of random
draws; returns the final state and the visualizer contents after each
window. -/
def runCapture : Refs → List (List ℚ × (ℕ → ℚ)) → Refs × List (List ℚ)
  | st, [] => (st, [])
  | st, (w, j) :: rest =>
      let r1 := captureWindow st w j
      let r2 := runCapture r1.1 rest
      (r2.1, r1.1.visualizerData :: r2.2)

/-- One tick of the video-sampling interval (lines 451-472): it fires
only while the interval timer is alive, and sends the captured frame. -/
def videoTick (st : Refs) (frame : List ℕ) : List Effect :=
  if st.timerActive then [Effect.sendVideo frame] else []

/-- `startSession` (lines 338-443): clear the error, create the two
audio contexts, reset the virtual clock to 0, then request user media
and open the connection.  `mediaOk` models whether
`getUserMedia`/`connect` succeeds and `tracks` the number of device
tracks acquired on success.  On failure the catch block (lines 439-442)
records a fixed error message and releases nothing. -/
def startSession (st : Refs) (mediaOk : Bool) (tracks : ℕ) :
    Refs × List Effect :=
  let st1 := { st with
                 error := none,
                 inputContextRef := some CtxStatus.running,
                 outputContextRef := some CtxStatus.running,
                 nextStartTimeRef := 0 }
  if mediaOk then
    ({ st1 with streamRef := some tracks, sessionRef := some () }, [])
  else
    ({ st1 with error := some "Failed to access media devices or connect." }, [])

/-- The `onerror` callback (lines 422-426): the error object is only
logged; the recorded, displayable error is the fixed string. -/
def onError (st : Refs) (_msgText : String) : Refs :=
  { st with error := some "Connection error.", isConnected := false }

/-- `stopSession` (lines 475-488): close the session if its ref is set,
stop every stream track, close both audio contexts (the refs keep
pointing at the now-closed contexts), clear the interval timer if its id
is stored, set disconnected — and null out only `sessionRef`. -/
def stopSession (st : Refs) : Refs × List Effect :=
  ({ st with
       inputContextRef := st.inputContextRef.map (fun _ => CtxStatus.closed),
       outputContextRef := st.outputContextRef.map (fun _ => CtxStatus.closed),
       timerActive := if st.frameIntervalRef.isSome then false else st.timerActive,
       isConnected := false,
       sessionRef := none },
   (match st.sessionRef with
    | some _ => [Effect.sessionClose]
    | none => [])
     ++ (match st.streamRef with
         | some n => (List.range n).map Effect.trackStop
         | none => [])
     ++ (match st.inputContextRef with
         | some _ => [Effect.closeInputCtx]
         | none => [])
     ++ (match st.outputContextRef with
         | some _ => [Effect.closeOutputCtx]
         | none => [])
     ++ (match st.frameIntervalRef with
         | some _ => [Effect.clearTimer]
         | none => []))

/-- Recogniser for track-stop release calls in an effect log. -/
def isTrackStop : Effect → Bool
  | Effect.trackStop _ => true
  | _ => false

/-- A fully open session state, used as the concrete input of the
witnesses and counterexamples. -/
def openSt : Refs :=
  { streamRef := some 2
    inputContextRef := some CtxStatus.running
    outputContextRef := some CtxStatus.running
    nextStartTimeRef := 2
    sourcesRef := [5]
    sessionRef := some ()
    frameIntervalRef := some ()
    nextId := 6
    timerActive := true
    isConnected := true
    error := none
    visualizerData := List.replicate 10 10 }

/-- A freshly mounted component: every ref null, clock 0. -/
def idleSt : Refs :=
  { streamRef := none
    inputContextRef := none
    outputContextRef := none
    nextStartTimeRef := 0
    sourcesRef := []
    sessionRef := none
    frameIntervalRef := none
    nextId := 0
    timerActive := false
    isConnected := false
    error := none
    visualizerData := List.replicate 10 10 }

/-- A message carrying one well-formed audio sample and no interruption
flag. -/
def wAudioMsg : ServerMessage := ⟨[⟨some [16, 0]⟩], false⟩

/-- A pure interruption message (no parts). -/
def wIntMsg : ServerMessage := ⟨[], true⟩

/-- An interruption message whose first part carries a malformed
(odd-length) audio payload. -/
def cMsgBad : ServerMessage := ⟨[⟨some [0]⟩], true⟩

/-- Two audio-bearing messages with arrival device times, for the
scheduling witness. -/
def wMsgs : List (ℚ × ServerMessage) :=
  [(0, ⟨[⟨some [16, 0, 32, 0]⟩], false⟩), (3, wAudioMsg)]

/-- Two capture windows with explicit random-draw streams. -/
def wWindows : List (List ℚ × (ℕ → ℚ)) :=
  [([1, -1], fun _ => 0), ([0, 0, 0], fun i => (i : ℚ))]

/-! ## Theorems -/

/-- Reassembling the little-endian byte pair of an in-range 16-bit
signed integer yields the integer back. -/
theorem int16_roundtrip (n : ℤ) (h1 : -32768 ≤ n) (h2 : n ≤ 32767) :
    int16OfBytes ((n % 65536).toNat % 256) ((n % 65536).toNat / 256) = n := by
  unfold int16OfBytes
  have h3 : (0 : ℤ) ≤ n % 65536 := Int.emod_nonneg n (by norm_num)
  have h4 : n % 65536 < 65536 := Int.emod_lt_of_pos n (by norm_num)
  have h5 : ((n % 65536).toNat : ℤ) = n % 65536 := Int.toNat_of_nonneg h3
  split <;> omega

/-- The quantizer clamps into the 16-bit signed range. -/
theorem quantize_range (x : ℚ) : -32768 ≤ quantize x ∧ quantize x ≤ 32767 := by
  unfold quantize
  exact ⟨le_max_left _ _, max_le (by norm_num) (min_le_left _ _)⟩

/-- The codec round-trips: decoding an encoded sample sequence yields
exactly the quantized samples. -/
theorem decode_encode (s : List ℚ) : decode (encode s) = some (s.map quantize) := by
  induction s with
  | nil => rfl
  | cons x t ih =>
      have hb : encode (x :: t) = bytesOfInt16 (quantize x) ++ encode t := by
        simp [encode]
      rw [hb]
      show decode ((quantize x % 65536).toNat % 256
        :: (quantize x % 65536).toNat / 256 :: encode t) = _
      simp only [decode, ih, Option.map_some]
      rw [int16_roundtrip (quantize x) (quantize_range x).1 (quantize_range x).2]
      rfl

/-- Out-of-range positive input clamps to the maximal 16-bit value. -/
theorem quantize_pos_clamp : quantize (3 / 2) = 32767 := by
  unfold quantize
  rw [show ((3 : ℚ) / 2) * 32768 = ((49152 : ℤ) : ℚ) by norm_num, Int.floor_intCast]
  norm_num

/-- Out-of-range negative input clamps to the minimal 16-bit value. -/
theorem quantize_neg_clamp : quantize (-2) = -32768 := by
  unfold quantize
  rw [show ((-2 : ℚ)) * 32768 = ((-65536 : ℤ) : ℚ) by norm_num, Int.floor_intCast]
  norm_num

/-- Claim C5: `encode` maps each float sample to a 16-bit signed integer
by linear scaling, clamping out-of-range input (1.5 to the maximal,
-2.0 to the minimal representable value) without overflow or exception,
and `decode (encode s)` reproduces the 16-bit-quantized values of `s`
exactly. -/
theorem claim_C5_pcm_codec :
    (∀ s : List ℚ, decode (encode s) = some (s.map quantize))
    ∧ (∀ x : ℚ, -32768 ≤ quantize x ∧ quantize x ≤ 32767)
    ∧ quantize (3 / 2) = 32767 ∧ quantize (-2) = -32768 :=
  ⟨decode_encode, quantize_range, quantize_pos_clamp, quantize_neg_clamp⟩

/-- A message with a truthy well-formed audio payload and no
interruption flag takes exactly the scheduling path of lines 388-410:
clock to `max(nextStartTime, now)`, decode, start there, advance by the
buffer's duration, register the new source. -/
theorem processMessage_valid (st : Refs) (now : ℚ) (m : ServerMessage)
    (d : List ℕ) (buf : AudioData) (c : CtxStatus)
    (h1 : audioData m = some d) (h2 : decodeAudioData d = some buf)
    (h3 : m.interrupted = false) (h4 : st.outputContextRef = some c) :
    processMessage st now m =
      ({ st with
           nextStartTimeRef := max st.nextStartTimeRef now + buf.duration,
           sourcesRef := st.nextId :: st.sourcesRef,
           nextId := st.nextId + 1 },
       [Effect.decodeAudio d,
        Effect.sourceStart st.nextId (max st.nextStartTimeRef now) buf.duration]) := by
  unfold processMessage interruptBranch
  rw [h1, h4]
  dsimp only
  rw [h2, h3]
  dsimp only
  simp

/-- The `onmessage` handler never touches the output-context ref. -/
theorem processMessage_outputCtx (st : Refs) (now : ℚ) (m : ServerMessage) :
    (processMessage st now m).1.outputContextRef = st.outputContextRef := by
  unfold processMessage interruptBranch
  rcases h1 : audioData m with _ | d <;> rcases h2 : st.outputContextRef with _ | c <;> dsimp only
  · split <;> first | rfl | exact h2
  · split <;> first | rfl | exact h2
  · split <;> first | rfl | exact h2
  · rcases h3 : decodeAudioData d with _ | buf <;> dsimp only <;>
      first
        | rfl
        | (split <;> first | rfl | exact h2)

/-- `specSchedule` produces one start per arrival. -/
theorem specSchedule_length (l : List (ℚ × ℚ)) :
    ∀ n, (specSchedule n l).length = l.length := by
  induction l with
  | nil => intro n; rfl
  | cons p rest ih => intro n; obtain ⟨now, dur⟩ := p; simp [specSchedule, ih]

/-- The first scheduled start is at or after the incoming clock
cursor. -/
theorem specSchedule_head_ge (l : List (ℚ × ℚ)) (n : ℚ) (a : ℚ × ℚ)
    (h : a ∈ (specSchedule n l).head?) : n ≤ a.1 := by
  cases l with
  | nil => simp [specSchedule] at h
  | cons p rest =>
      obtain ⟨now, dur⟩ := p
      simp [specSchedule] at h
      subst h
      exact le_max_left _ _

/-- Consecutive scheduled buffers never overlap: each start is at or
after the previous start plus the previous duration. -/
theorem specSchedule_chain (l : List (ℚ × ℚ)) :
    ∀ n, List.Chain' (fun a b => a.1 + a.2 ≤ b.1) (specSchedule n l) := by
  induction l with
  | nil => intro n; simp [specSchedule]
  | cons p rest ih =>
      intro n
      obtain ⟨now, dur⟩ := p
      rw [specSchedule]
      refine List.chain'_cons'.mpr ⟨?_, ih _⟩
      intro b hb
      exact specSchedule_head_ge _ _ _ hb

/-- No buffer is scheduled in the past: each start is at or after its
arrival time. -/
theorem specSchedule_zip (l : List (ℚ × ℚ)) :
    ∀ n, ∀ q ∈ l.zip (specSchedule n l), q.1.1 ≤ q.2.1 := by
  induction l with
  | nil => intro n q hq; simp at hq
  | cons p rest ih =>
      intro n q hq
      obtain ⟨now, dur⟩ := p
      rw [specSchedule, List.zip_cons_cons] at hq
      rcases List.mem_cons.mp hq with h | h
      · rw [h]; exact le_max_right _ _
      · exact ih _ _ h

/-- On a run of valid audio messages the sequence of issued
source-start calls is exactly the spec's scheduling recurrence applied
to the arrival times and buffer durations. -/
theorem runMessages_startEvents (msgs : List (ℚ × ServerMessage)) :
    ∀ st : Refs, (msgs.all fun p => validAudioMsg p.2) = true →
      st.outputContextRef.isSome = true →
      startEvents (runMessages st msgs).2
        = specSchedule st.nextStartTimeRef (msgs.map fun p => (p.1, durOf p.2)) := by
  induction msgs with
  | nil => intro st hall hctx; rfl
  | cons p rest ih =>
      intro st hall hctx
      obtain ⟨now, m⟩ := p
      rw [List.all_cons, Bool.and_eq_true] at hall
      have hvm := hall.1
      unfold validAudioMsg at hvm
      rw [Bool.and_eq_true, Bool.not_eq_true'] at hvm
      obtain ⟨buf, hbuf⟩ := Option.isSome_iff_exists.mp hvm.1
      unfold audioOf at hbuf
      rcases h1 : audioData m with _ | d
      · rw [h1] at hbuf; simp at hbuf
      · rw [h1, Option.some_bind] at hbuf
        obtain ⟨c, hc⟩ := Option.isSome_iff_exists.mp hctx
        have hstep := processMessage_valid st now m d buf c h1 hbuf hvm.2 hc
        rw [runMessages, hstep]
        have hdur : durOf m = buf.duration := by
          unfold durOf audioOf
          rw [h1, Option.some_bind, hbuf]
        have hctx' : ({ st with
            nextStartTimeRef := max st.nextStartTimeRef now + buf.duration,
            sourcesRef := st.nextId :: st.sourcesRef,
            nextId := st.nextId + 1 } : Refs).outputContextRef.isSome = true := by
          simpa using hctx
        simp only [List.map_cons, specSchedule, hdur]
        rw [← ih _ hall.2 hctx']
        unfold startEvents
        rw [List.filterMap_append]
        rfl

/-- Claim C1: for a sequence of decoded inbound audio buffers arriving
in order while the session is open, each buffer is started at
`max(nextStartTime, current device time)` and the clock then advances by
exactly that buffer's duration: the issued source-start calls are
exactly the spec's scheduling recurrence, one per message, consecutive
starts never overlap (each is at or after the previous start plus its
duration), and no start precedes its arrival time. -/
theorem claim_C1_schedule_nonoverlap (st : Refs) (msgs : List (ℚ × ServerMessage))
    (hmsgs : (msgs.all fun p => validAudioMsg p.2) = true)
    (hctx : st.outputContextRef.isSome = true) :
    startEvents (runMessages st msgs).2
      = specSchedule st.nextStartTimeRef (msgs.map fun p => (p.1, durOf p.2))
    ∧ (startEvents (runMessages st msgs).2).length = msgs.length
    ∧ List.Chain' (fun a b => a.1 + a.2 ≤ b.1) (startEvents (runMessages st msgs).2)
    ∧ ∀ q ∈ msgs.zip (startEvents (runMessages st msgs).2), q.1.1 ≤ q.2.1 := by
  have hmain := runMessages_startEvents msgs st hmsgs hctx
  refine ⟨hmain, ?_, ?_, ?_⟩
  · rw [hmain, specSchedule_length, List.length_map]
  · rw [hmain]; exact specSchedule_chain _ _
  · rw [hmain]
    intro q hq
    have hmem : Prod.map (fun p : ℚ × ServerMessage => (p.1, durOf p.2)) id q
        ∈ (msgs.map fun p => (p.1, durOf p.2)).zip
            (specSchedule st.nextStartTimeRef (msgs.map fun p => (p.1, durOf p.2))) := by
      rw [List.zip_map_left]
      exact List.mem_map_of_mem _ hq
    have hle := specSchedule_zip _ _ _ hmem
    simpa using hle

/-- Concrete two-message run discharging claim C1's hypotheses. -/
theorem claim_C1_witness :
    (wMsgs.all fun p => validAudioMsg p.2) = true
    ∧ openSt.outputContextRef.isSome = true
    ∧ (startEvents (runMessages openSt wMsgs).2).length = wMsgs.length :=
  ⟨by decide, by decide,
   (claim_C1_schedule_nonoverlap openSt wMsgs (by decide) (by decide)).2.1⟩

/-- With the interruption flag set, the interruption branch stops every
registered source, clears the set and resets the clock. -/
theorem interruptBranch_true (st : Refs) (m : ServerMessage) (eff : List Effect)
    (hint : m.interrupted = true) :
    interruptBranch st m eff
      = ({ st with sourcesRef := [], nextStartTimeRef := 0 },
         eff ++ st.sourcesRef.map Effect.sourceStop) := by
  unfold interruptBranch
  rw [hint]
  simp

/-- When the audio payload (if any) decodes, the handler always reaches
the interruption branch, applied to a state whose active-source set
extends the incoming one. -/
theorem processMessage_shape (st : Refs) (now : ℚ) (m : ServerMessage)
    (hwf : (match audioData m with
            | some d => (decodeAudioData d).isSome
            | none => true) = true) :
    ∃ st' eff, processMessage st now m = interruptBranch st' m eff
      ∧ ∃ pre, st'.sourcesRef = pre ++ st.sourcesRef := by
  unfold processMessage
  rcases h1 : audioData m with _ | d <;> rcases h2 : st.outputContextRef with _ | c <;> dsimp only
  · exact ⟨st, [], rfl, [], rfl⟩
  · exact ⟨st, [], rfl, [], rfl⟩
  · exact ⟨st, [], rfl, [], rfl⟩
  · rw [h1] at hwf
    dsimp only at hwf
    obtain ⟨buf, hbuf⟩ := Option.isSome_iff_exists.mp hwf
    rw [hbuf]
    dsimp only
    exact ⟨_, _, rfl, [st.nextId], rfl⟩

/-- Claim C2 (amended): after processing an inbound message that carries
the interruption flag and whose audio payload, if any, is well-formed,
every previously active source has been stopped, the active set is
empty, and `nextStartTime` is reset to 0. -/
theorem claim_C2_interruption (st : Refs) (now : ℚ) (m : ServerMessage)
    (hint : m.interrupted = true)
    (hwf : (match audioData m with
            | some d => (decodeAudioData d).isSome
            | none => true) = true) :
    (processMessage st now m).1.sourcesRef = []
    ∧ (processMessage st now m).1.nextStartTimeRef = 0
    ∧ ∀ sid ∈ st.sourcesRef, Effect.sourceStop sid ∈ (processMessage st now m).2 := by
  obtain ⟨st', eff, heq, pre, hpre⟩ := processMessage_shape st now m hwf
  rw [heq, interruptBranch_true st' m eff hint]
  refine ⟨rfl, rfl, ?_⟩
  intro sid hsid
  dsimp only
  rw [List.mem_append]
  right
  refine List.mem_map_of_mem _ ?_
  rw [hpre]
  exact List.mem_append_right _ hsid

/-- Counterexample to claim C2 as stated: an interruption message whose
first part carries a malformed (odd-length) audio payload aborts the
handler at the decode step, so the active set is not cleared and the
clock is not reset. -/
theorem claim_C2_counterexample :
    cMsgBad.interrupted = true
    ∧ ¬((processMessage { openSt with nextStartTimeRef := 5 } 0 cMsgBad).1.sourcesRef = []
        ∧ (processMessage { openSt with nextStartTimeRef := 5 } 0 cMsgBad).1.nextStartTimeRef = 0) := by
  decide

/-- Concrete interruption discharging claim C2's hypotheses. -/
theorem claim_C2_witness :
    wIntMsg.interrupted = true
    ∧ (processMessage openSt 3 wIntMsg).1.sourcesRef = []
    ∧ (processMessage openSt 3 wIntMsg).1.nextStartTimeRef = 0
    ∧ Effect.sourceStop 5 ∈ (processMessage openSt 3 wIntMsg).2 :=
  ⟨by decide,
   (claim_C2_interruption openSt 3 wIntMsg (by decide) (by decide)).1,
   (claim_C2_interruption openSt 3 wIntMsg (by decide) (by decide)).2.1,
   (claim_C2_interruption openSt 3 wIntMsg (by decide) (by decide)).2.2 5 (by decide)⟩

/-- Stop calls in an effect log carry no source-start events. -/
theorem startEvents_sourceStops (l : List ℕ) :
    startEvents (l.map Effect.sourceStop) = [] := by
  induction l with
  | nil => rfl
  | cons a t ih => simpa [startEvents, List.filterMap_cons] using ih

/-- The interruption branch only ever appends source-stop calls to the
effects already issued. -/
theorem interruptBranch_effects (st : Refs) (m : ServerMessage) (eff : List Effect) :
    ∃ tail, (interruptBranch st m eff).2 = eff ++ tail ∧ startEvents tail = [] := by
  unfold interruptBranch
  split
  · exact ⟨st.sourcesRef.map Effect.sourceStop, rfl, startEvents_sourceStops _⟩
  · exact ⟨[], by simp, rfl⟩

/-- A truthy well-formed audio payload is always decoded, and exactly
one source is started for it, whenever the output-context ref is
non-null. -/
theorem processMessage_audio_effects (st : Refs) (now : ℚ) (m : ServerMessage)
    (d : List ℕ) (buf : AudioData) (c : CtxStatus)
    (h1 : audioData m = some d) (h2 : decodeAudioData d = some buf)
    (h4 : st.outputContextRef = some c) :
    ∃ tail, (processMessage st now m).2
        = [Effect.decodeAudio d,
           Effect.sourceStart st.nextId (max st.nextStartTimeRef now) buf.duration] ++ tail
      ∧ startEvents tail = [] := by
  unfold processMessage
  rw [h1, h4]
  dsimp only
  rw [h2]
  dsimp only
  exact interruptBranch_effects _ _ _

/-- A state whose input context is not running captures nothing. -/
theorem captureWindow_not_running (st : Refs)
    (h : st.inputContextRef ≠ some CtxStatus.running)
    (w : List ℚ) (j : ℕ → ℚ) : captureWindow st w j = (st, []) := by
  unfold captureWindow
  rcases hin : st.inputContextRef with _ | x
  · rfl
  · cases x
    · exact absurd hin h
    · rfl

/-- After `stopSession` the input-context ref never points at a running
context. -/
theorem stopSession_inputCtx (st : Refs) :
    (stopSession st).1.inputContextRef ≠ some CtxStatus.running := by
  rcases h : st.inputContextRef with _ | x <;> simp [stopSession, h]

/-- After `stopSession` the interval timer is dead (assuming the timer
was only alive while its id was stored). -/
theorem stopSession_timer (st : Refs)
    (htimer : (st.frameIntervalRef.isSome || !st.timerActive) = true) :
    (stopSession st).1.timerActive = false := by
  rcases h : st.frameIntervalRef with _ | v
  · rw [h] at htimer
    simp at htimer
    simp [stopSession, h, htimer]
  · simp [stopSession, h]

/-- Claim C3 (amended): after `stopSession` no further outbound chunks
are sent — capture windows and video ticks produce nothing — but an
inbound audio message is not silently dropped: the output-context ref is
retained (merely closed), so its payload is still decoded and an audio
source is still started on the closed context. -/
theorem claim_C3_after_stop (st : Refs) (now : ℚ) (m : ServerMessage) (d : List ℕ)
    (h1 : audioData m = some d) (h2 : (decodeAudioData d).isSome = true)
    (hctx : st.outputContextRef.isSome = true)
    (htimer : (st.frameIntervalRef.isSome || !st.timerActive) = true) :
    (Effect.decodeAudio d ∈ (processMessage (stopSession st).1 now m).2
      ∧ (startEvents (processMessage (stopSession st).1 now m).2).length = 1)
    ∧ (∀ w j, captureWindow (stopSession st).1 w j = ((stopSession st).1, []))
    ∧ (∀ f, videoTick (stopSession st).1 f = []) := by
  obtain ⟨buf, hbuf⟩ := Option.isSome_iff_exists.mp h2
  obtain ⟨c, hc⟩ := Option.isSome_iff_exists.mp hctx
  have hc' : (stopSession st).1.outputContextRef = some CtxStatus.closed := by
    simp [stopSession, hc]
  obtain ⟨tail, htail, hstarts⟩ :=
    processMessage_audio_effects (stopSession st).1 now m d buf CtxStatus.closed h1 hbuf hc'
  refine ⟨⟨?_, ?_⟩, ?_, ?_⟩
  · rw [htail]
    exact List.mem_append_left _ (List.mem_cons_self _ _)
  · rw [htail]
    unfold startEvents
    rw [List.filterMap_append]
    unfold startEvents at hstarts
    rw [hstarts]
    rfl
  · exact fun w j => captureWindow_not_running _ (stopSession_inputCtx st) w j
  · intro f
    unfold videoTick
    rw [stopSession_timer st htimer]
    rfl

/-- Counterexample to claim C3 as stated: a well-formed audio message
arriving after `stopSession` is decoded, a source is started (one
source-start event is issued) and registered — it is not dropped. -/
theorem claim_C3_counterexample :
    Effect.decodeAudio [16, 0] ∈ (processMessage (stopSession openSt).1 0 wAudioMsg).2
    ∧ (startEvents (processMessage (stopSession openSt).1 0 wAudioMsg).2).length = 1
    ∧ (processMessage (stopSession openSt).1 0 wAudioMsg).1.sourcesRef = [6, 5] := by
  decide

/-- Concrete post-stop scenario discharging claim C3's hypotheses. -/
theorem claim_C3_witness :
    audioData wAudioMsg = some [16, 0]
    ∧ (decodeAudioData [16, 0]).isSome = true
    ∧ openSt.outputContextRef.isSome = true
    ∧ (openSt.frameIntervalRef.isSome || !openSt.timerActive) = true
    ∧ Effect.decodeAudio [16, 0] ∈ (processMessage (stopSession openSt).1 3 wAudioMsg).2
    ∧ videoTick (stopSession openSt).1 [9] = [] :=
  ⟨by decide, by decide, by decide, by decide,
   (claim_C3_after_stop openSt 3 wAudioMsg [16, 0]
      (by decide) (by decide) (by decide) (by decide)).1.1,
   (claim_C3_after_stop openSt 3 wAudioMsg [16, 0]
      (by decide) (by decide) (by decide) (by decide)).2.2 [9]⟩

/-- Every element of a per-track stop block is a track stop. -/
theorem countP_comp_trackStop (l : List ℕ) :
    l.countP (isTrackStop ∘ Effect.trackStop) = l.length := by
  induction l with
  | nil => rfl
  | cons a t ih => simp [List.countP_cons, ih, isTrackStop, Function.comp]

/-- A block of per-track stop calls counts one per track. -/
theorem trackStops_countP (n : ℕ) :
    (((List.range n).map Effect.trackStop).countP isTrackStop) = n := by
  rw [List.countP_map, countP_comp_trackStop, List.length_range]

/-- A block of per-track stop calls contains no other release call. -/
theorem trackStops_count_other (n : ℕ) (e : Effect) (h : isTrackStop e = false) :
    ((List.range n).map Effect.trackStop).count e = 0 := by
  rw [List.count_eq_zero]
  intro hmem
  obtain ⟨i, _, hi⟩ := List.mem_map.mp hmem
  rw [← hi] at h
  simp [isTrackStop] at h

/-- Claim C4 (amended): `stopSession` never throws (it is a total
function of the component state), marks the session disconnected, and on
each call issues exactly one release per still-referenced resource —
session close, one stop per stream track, both context closes, the timer
cancellation.  It clears only the session ref: the stream, context and
timer refs are retained, so a second call re-issues the context-close
(and track-stop) calls instead of releasing exactly once. -/
theorem claim_C4_stop_idempotent (st : Refs) :
    (stopSession st).1.isConnected = false
    ∧ (stopSession st).1.sessionRef = none
    ∧ (stopSession st).2.count Effect.sessionClose
        = (if st.sessionRef.isSome then 1 else 0)
    ∧ (stopSession st).2.countP isTrackStop = st.streamRef.getD 0
    ∧ (stopSession st).2.count Effect.closeInputCtx
        = (if st.inputContextRef.isSome then 1 else 0)
    ∧ (stopSession st).2.count Effect.closeOutputCtx
        = (if st.outputContextRef.isSome then 1 else 0)
    ∧ (stopSession st).2.count Effect.clearTimer
        = (if st.frameIntervalRef.isSome then 1 else 0)
    ∧ (stopSession st).1.streamRef = st.streamRef
    ∧ (stopSession st).1.frameIntervalRef = st.frameIntervalRef
    ∧ (stopSession st).1.inputContextRef.isSome = st.inputContextRef.isSome
    ∧ (stopSession st).1.outputContextRef.isSome = st.outputContextRef.isSome
    ∧ (stopSession (stopSession st).1).2.count Effect.closeInputCtx
        = (if st.inputContextRef.isSome then 1 else 0) := by
  rcases st with ⟨s, ic, oc, nst, src, ses, fi, nid, ta, conn, err, vis⟩
  rcases s with _ | n <;> rcases ic with _ | a <;> rcases oc with _ | b <;>
    rcases ses with _ | u <;> rcases fi with _ | v <;>
      simp [stopSession, List.count_append, List.countP_append, trackStops_countP,
        countP_comp_trackStop, trackStops_count_other, isTrackStop, List.count_cons,
        List.countP_cons]

/-- Counterexample to claim C4 as stated: after one `stopSession` the
stream ref is still set (references are not cleared), and calling it
twice issues the input-context close twice, not exactly once. -/
theorem claim_C4_counterexample :
    (stopSession openSt).1.streamRef ≠ none
    ∧ ((stopSession openSt).2
        ++ (stopSession (stopSession openSt).1).2).count Effect.closeInputCtx = 2 := by
  decide

/-- Claim C6 (amended): on a transport error from any state the session
records the fixed message for display and marks itself disconnected;
the transport error's own text is only logged, not preserved. -/
theorem claim_C6_fixed_error (st : Refs) (e : String) :
    (onError st e).error = some "Connection error."
    ∧ (onError st e).isConnected = false :=
  ⟨rfl, rfl⟩

/-- Counterexample to claim C6 as stated: the transport error's own
message text is not what the observable error state carries. -/
theorem claim_C6_counterexample :
    (onError openSt "boom").error ≠ some "boom" := by
  decide

/-- Claim C7 (amended): if device acquisition fails during `start()`,
the acquisition error is reported, the session never starts (no stream,
no session, no connection change), and no retry or release call is
issued — in particular the two audio contexts created before device
acquisition remain open on the error path, and are only closed by a
later `stopSession`. -/
theorem claim_C7_acquisition_failure (st : Refs) (tracks : ℕ) :
    (startSession st false tracks).1.error
        = some "Failed to access media devices or connect."
    ∧ (startSession st false tracks).1.sessionRef = st.sessionRef
    ∧ (startSession st false tracks).1.streamRef = st.streamRef
    ∧ (startSession st false tracks).1.isConnected = st.isConnected
    ∧ (startSession st false tracks).2 = []
    ∧ (startSession st false tracks).1.inputContextRef = some CtxStatus.running
    ∧ (startSession st false tracks).1.outputContextRef = some CtxStatus.running
    ∧ Effect.closeInputCtx ∈ (stopSession (startSession st false tracks).1).2
    ∧ Effect.closeOutputCtx ∈ (stopSession (startSession st false tracks).1).2 := by
  refine ⟨rfl, rfl, rfl, rfl, rfl, rfl, rfl, ?_, ?_⟩ <;>
    simp [stopSession, startSession, List.mem_append]

/-- Counterexample to claim C7 as stated: on acquisition failure the
audio contexts created before the failure stay open and no release call
is made. -/
theorem claim_C7_counterexample :
    (startSession idleSt false 0).1.inputContextRef = some CtxStatus.running
    ∧ (startSession idleSt false 0).1.outputContextRef = some CtxStatus.running
    ∧ Effect.closeInputCtx ∉ (startSession idleSt false 0).2 := by
  decide

/-- `updateBars` refreshes every bar from the volume plus its own
draw. -/
theorem updateBars_eq (l : List ℚ) (j : ℕ → ℚ) (v : ℚ) :
    ∀ k, updateBars j v k l
      = (List.range l.length).map (fun i => j (k + i) * 20 + v * 500) := by
  induction l with
  | nil => intro k; rfl
  | cons a t ih =>
      intro k
      rw [updateBars, List.length_cons, List.range_succ_eq_map, List.map_cons,
        List.map_map, ih (k + 1)]
      have harg : ∀ i : ℕ, k + 1 + i = k + (i + 1) := by omega
      congr 1
      refine List.map_congr_left ?_
      intro i _
      simp [Function.comp, harg i]

/-- `updateBars` keeps the bar count. -/
theorem updateBars_length (l : List ℚ) (j : ℕ → ℚ) (v : ℚ) :
    ∀ k, (updateBars j v k l).length = l.length := by
  induction l with
  | nil => intro k; rfl
  | cons a t ih => intro k; rw [updateBars, List.length_cons, List.length_cons, ih]

/-- While the input context runs, one captured window sends one encoded
chunk and refreshes the visualizer once. -/
theorem captureWindow_running (st : Refs) (w : List ℚ) (j : ℕ → ℚ)
    (h : st.inputContextRef = some CtxStatus.running) :
    captureWindow st w j
      = ({ st with visualizerData := updateBars j (meanAbs w) 0 st.visualizerData },
         [Effect.sendChunk (encode w)]) := by
  unfold captureWindow
  rw [h]

/-- Claim C8: for every captured window the 10-element visualizer vector
is refreshed exactly once, each bar from that window's mean absolute
amplitude plus its own independent random draw. -/
theorem claim_C8_visualizer (st : Refs) (windows : List (List ℚ × (ℕ → ℚ)))
    (hrun : st.inputContextRef = some CtxStatus.running)
    (h10 : st.visualizerData.length = 10) :
    (runCapture st windows).2
      = windows.map (fun p =>
          (List.range 10).map (fun i => p.2 i * 20 + meanAbs p.1 * 500)) := by
  induction windows generalizing st with
  | nil => rfl
  | cons p rest ih =>
      obtain ⟨w, j⟩ := p
      rw [runCapture, captureWindow_running st w j hrun]
      dsimp only
      rw [List.map_cons]
      congr 1
      · rw [updateBars_eq, h10]
        refine List.map_congr_left ?_
        intro i _
        rw [Nat.zero_add]
      · refine ih _ hrun ?_
        dsimp only
        rw [updateBars_length, h10]

/-- Concrete two-window capture run discharging claim C8's
hypotheses. -/
theorem claim_C8_witness :
    openSt.inputContextRef = some CtxStatus.running
    ∧ openSt.visualizerData.length = 10
    ∧ (runCapture openSt wWindows).2
        = wWindows.map (fun p =>
            (List.range 10).map (fun i => p.2 i * 20 + meanAbs p.1 * 500)) :=
  ⟨rfl, by decide, claim_C8_visualizer openSt wWindows rfl (by decide)⟩

/-- Claim C9: every `startSession` resets the virtual clock to 0 during
setup, on the success and the failure path alike, so a new session never
inherits a stale `nextStartTime`. -/
theorem claim_C9_clock_reset (st : Refs) (mediaOk : Bool) (tracks : ℕ) :
    (startSession st mediaOk tracks).1.nextStartTimeRef = 0 := by
  unfold startSession
  cases mediaOk <;> rfl

/-- Truncating the parts list to its first element leaves the payload
the handler reads unchanged. -/
theorem audioData_take_one (m : ServerMessage) :
    audioData ⟨m.parts.take 1, m.interrupted⟩ = audioData m := by
  rcases m with ⟨parts, intr⟩
  cases parts <;> rfl

/-- Claim C10: message handling depends only on the first part of the
model turn — audio data in any later part is never decoded and never
scheduled. -/
theorem claim_C10_first_part_only (st : Refs) (now : ℚ) (m : ServerMessage) :
    processMessage st now m
      = processMessage st now ⟨m.parts.take 1, m.interrupted⟩ := by
  unfold processMessage interruptBranch
  rw [audioData_take_one]

end LNC
